import Mathlib

/-!
Verification of the rshogi analysis/tuning scripts
(`packages/rust-core/scripts/analysis/*.py`) against their
natural-language specification.

Each Python source file is embedded in its own namespace.  Positions are
modelled at the token level: a protocol position string is either a bare
head (no " moves " separator) or a head together with the ordered list of
move tokens that follow the first " moves " separator.  This is exactly
the decomposition both `chop_moves` implementations compute with
`pos_line.split(' moves ', 1)` followed by whitespace-splitting the tail.
-/

set_option autoImplicit false
set_option maxHeartbeats 1000000

/-- A protocol position string, decomposed the way `chop_moves` does:
`bare s` is a string with no " moves " separator (`s` may be empty,
mirroring a falsy Python string), and `withMoves head toks` is
`head ++ " moves " ++ join toks` for the token list `toks`. -/
inductive PosLine where
  | bare (s : String)
  | withMoves (head : String) (toks : List String)
deriving DecidableEq, Repr

/-- Head of a decomposed position string. -/
def PosLine.headOf : PosLine → String
  | .bare s => s
  | .withMoves h _ => h

/-- Move-token list of a decomposed position string. -/
def PosLine.toksOf : PosLine → List String
  | .bare _ => []
  | .withMoves _ t => t

namespace ExpandTargetsBack

/-- Embedding of `chop_moves` from `expand_targets_back.py` (lines 5-14) on a
decomposed position.  A falsy (`""`) or separator-free string is returned
unchanged; otherwise the last `back_plies` tokens are dropped, but only when
`back_plies > 0` and the token list has at least `back_plies` elements
(`if back_plies > 0 and len(toks) >= back_plies`); the final line
`return f"{head} moves {' '.join(toks)}" if toks else head` returns the bare
head when the remaining token list is empty. -/
def chop_moves_core (p : PosLine) (back_plies : ℕ) : PosLine :=
  match p with
  | .bare s => .bare s
  | .withMoves h toks =>
      if 0 < back_plies ∧ back_plies ≤ toks.length then
        if toks.take (toks.length - back_plies) = [] then .bare h
        else .withMoves h (toks.take (toks.length - back_plies))
      else
        if toks = [] then .bare h else .withMoves h toks

/-- The same function lifted to an optional position (the script passes
`t.get('pre_position') or t.get('pos_after')`, which may be `None`;
`if not pos_line: return pos_line` hands a `None` back unchanged). -/
def chop_moves (p : Option PosLine) (back_plies : ℕ) : Option PosLine :=
  p.map (fun q => chop_moves_core q back_plies)

end ExpandTargetsBack

namespace MakeTargetsFromLogs

/-- Embedding of `chop_moves` from `make_targets_from_logs.py`
(lines 110-122) restricted to truthy strings (the `if not pos_line:
return None` branch is handled by `chop_moves` below).  A separator-free
string or `back_plies <= 0` returns the input unchanged; otherwise the last
`back_plies` tokens are dropped when `len(toks) >= back_plies` and the token
list is emptied (`toks = []`) when `len(toks) < back_plies`; an empty
remaining token list yields the bare head. -/
def chop_moves_core (p : PosLine) (back_plies : ℕ) : PosLine :=
  match p with
  | .bare s => .bare s
  | .withMoves h toks =>
      if back_plies = 0 then .withMoves h toks
      else if back_plies ≤ toks.length then
        if toks.take (toks.length - back_plies) = [] then .bare h
        else .withMoves h (toks.take (toks.length - back_plies))
      else .bare h

/-- Full embedding of `chop_moves` from `make_targets_from_logs.py`
(lines 110-122): a `None` or empty (falsy) position yields `None`
(`if not pos_line: return None`), otherwise `chop_moves_core` applies. -/
def chop_moves (p : Option PosLine) (back_plies : ℕ) : Option PosLine :=
  match p with
  | none => none
  | some q => if q = .bare "" then none else some (chop_moves_core q back_plies)

end MakeTargetsFromLogs

/-- Closed form of the log-mining chop on a position with moves. -/
theorem make_chop_closed (h : String) (toks : List String) (k : ℕ) :
    MakeTargetsFromLogs.chop_moves_core (.withMoves h toks) k =
      if k = 0 then .withMoves h toks
      else if toks.length ≤ k then .bare h
      else .withMoves h (toks.take (toks.length - k)) := by
  simp only [MakeTargetsFromLogs.chop_moves_core]
  by_cases hk : k = 0
  · simp [hk]
  · rw [if_neg hk, if_neg hk]
    by_cases hlen : k ≤ toks.length
    · rw [if_pos hlen]
      by_cases heq : toks.length ≤ k
      · have hTake : toks.take (toks.length - k) = [] := by
          have : toks.length - k = 0 := by omega
          simp [this]
        rw [if_pos hTake, if_pos heq]
      · have hTake : toks.take (toks.length - k) ≠ [] := by
          intro hnil
          have hlenTake := congrArg List.length hnil
          simp [List.length_take] at hlenTake
          omega
        rw [if_neg hTake, if_neg heq]
    · have hle : toks.length ≤ k := by omega
      rw [if_neg hlen, if_pos hle]

/-- Closed form of the back-expansion chop on a position with moves. -/
theorem back_chop_closed (h : String) (toks : List String) (k : ℕ) :
    ExpandTargetsBack.chop_moves_core (.withMoves h toks) k =
      if 0 < k ∧ k ≤ toks.length then
        (if toks.length ≤ k then .bare h
         else .withMoves h (toks.take (toks.length - k)))
      else (if toks = [] then .bare h else .withMoves h toks) := by
  simp only [ExpandTargetsBack.chop_moves_core]
  by_cases hc : 0 < k ∧ k ≤ toks.length
  · rw [if_pos hc, if_pos hc]
    by_cases heq : toks.length ≤ k
    · have hTake : toks.take (toks.length - k) = [] := by
        have : toks.length - k = 0 := by omega
        simp [this]
      rw [if_pos hTake, if_pos heq]
    · have hTake : toks.take (toks.length - k) ≠ [] := by
        intro hnil
        have hlenTake := congrArg List.length hnil
        simp [List.length_take] at hlenTake
        omega
      rw [if_neg hTake, if_neg heq]
  · rw [if_neg hc, if_neg hc]

/-- The C1 counterexample instance evaluates as the source does: chopping 2
plies off a position with a single move token leaves it unchanged in
`expand_targets_back.py`. -/
theorem c1_counterexample :
    ExpandTargetsBack.chop_moves_core (.withMoves "startpos" ["7g7f"]) 2 =
      .withMoves "startpos" ["7g7f"] ∧
    PosLine.withMoves "startpos" ["7g7f"] ≠ .bare "startpos" := by
  constructor
  · rfl
  · decide

/-- C1 (amended): for a position with head `h` and `N` trailing move tokens
and any rewind depth `k`, both `chop_moves` implementations preserve the head
and keep exactly the first `N - k` tokens when `k ≤ N`.  When `k > N` the
`make_targets_from_logs.py` implementation collapses to the bare head, while
the `expand_targets_back.py` implementation leaves all `N` tokens in place
(it only chops when `len(toks) >= back_plies`).  The spec's concrete
scenario (rewind depth 2 on a four-move position) is included. -/
theorem c1_rewind_tokens (h : String) (toks : List String) (k : ℕ) :
    (MakeTargetsFromLogs.chop_moves_core (.withMoves h toks) k).headOf = h ∧
    (MakeTargetsFromLogs.chop_moves_core (.withMoves h toks) k).toksOf =
      toks.take (toks.length - k) ∧
    (toks.length < k →
      MakeTargetsFromLogs.chop_moves_core (.withMoves h toks) k = .bare h) ∧
    (ExpandTargetsBack.chop_moves_core (.withMoves h toks) k).headOf = h ∧
    (ExpandTargetsBack.chop_moves_core (.withMoves h toks) k).toksOf =
      (if k ≤ toks.length then toks.take (toks.length - k) else toks) ∧
    MakeTargetsFromLogs.chop_moves_core
        (.withMoves "startpos" ["7g7f", "3c3d", "8h2b", "3a2b"]) 2 =
      .withMoves "startpos" ["7g7f", "3c3d"] := by
  refine ⟨?_, ?_, ?_, ?_, ?_, by rfl⟩
  · rw [make_chop_closed]
    split
    · rfl
    · split <;> rfl
  · rw [make_chop_closed]
    by_cases hk : k = 0
    · subst hk
      simp [PosLine.toksOf]
    · rw [if_neg hk]
      by_cases hle : toks.length ≤ k
      · have : toks.length - k = 0 := by omega
        rw [if_pos hle, this]
        simp [PosLine.toksOf]
      · rw [if_neg hle]
        rfl
  · intro hlt
    rw [make_chop_closed, if_neg (by omega : ¬ k = 0), if_pos (by omega : toks.length ≤ k)]
  · rw [back_chop_closed]
    split
    · split <;> rfl
    · split <;> rfl
  · rw [back_chop_closed]
    by_cases hc : 0 < k ∧ k ≤ toks.length
    · rw [if_pos hc, if_pos hc.2]
      by_cases hle : toks.length ≤ k
      · have : toks.length - k = 0 := by omega
        rw [if_pos hle, this]
        simp [PosLine.toksOf]
      · rw [if_neg hle]
        rfl
    · rw [if_neg hc]
      by_cases hk : k ≤ toks.length
      · have hk0 : k = 0 := by omega
        subst hk0
        rw [if_pos (by omega : 0 ≤ toks.length)]
        simp only [Nat.sub_zero, List.take_length]
        split
        · rename_i hnil
          subst hnil
          rfl
        · rfl
      · rw [if_neg hk]
        split
        · rename_i hnil
          subst hnil
          rfl
        · rfl

/-- Witness for `c1_rewind_tokens`: the `k > N` hypothesis is satisfiable
(one token, rewind depth 3), and there the log-mining chop collapses to the
bare head while the back-expansion chop keeps the token. -/
theorem c1_rewind_tokens_witness :
    MakeTargetsFromLogs.chop_moves_core (.withMoves "startpos" ["7g7f"]) 3 =
      .bare "startpos" ∧
    (ExpandTargetsBack.chop_moves_core (.withMoves "startpos" ["7g7f"]) 3).toksOf =
      ["7g7f"] := by
  have h := c1_rewind_tokens "startpos" ["7g7f"] 3
  refine ⟨h.2.2.1 (by decide), ?_⟩
  rw [h.2.2.2.2.1]
  decide

namespace SpsaOptimize

/-- Python's `round` on an exact rational: round half to even (banker's
rounding).  `spsa_optimize.py` applies it to `(x - mn) / step` with integer
`x`, `mn`, `step`, so the argument is an exact dyadic-free rational and the
float detour of CPython is value-preserving at the magnitudes involved. -/
def py_round (q : ℚ) : ℤ :=
  if q - ⌊q⌋ < 1/2 then ⌊q⌋
  else if 1/2 < q - ⌊q⌋ then ⌊q⌋ + 1
  else if ⌊q⌋ % 2 = 0 then ⌊q⌋ else ⌊q⌋ + 1

/-- Embedding of `clamp_step` from `spsa_optimize.py` (lines 34-41): clamp
`x` into `[mn, mx]`, then, when `step > 1` (`if step and step>1`), snap to
the nearest grid point `round((x - mn)/step)*step + mn` and clamp the result
again. -/
def clamp_step (x mn mx step : ℤ) : ℤ :=
  if 1 < step then
    max mn (min mx (py_round (((max mn (min mx x) - mn : ℤ) : ℚ) / (step : ℚ)) * step + mn))
  else max mn (min mx x)

/-- The `theta_plus` component computation of the SPSA iteration
(`spsa_optimize.py` line 115): perturb by `sign * d` and clamp+snap.
`d` is the integer perturbation magnitude `max(1, round(c_k * step))`. -/
def theta_plus_component (theta sign d mn mx step : ℤ) : ℤ :=
  clamp_step (theta + sign * d) mn mx step

/-- The `theta_minus` component computation (`spsa_optimize.py` line 116). -/
def theta_minus_component (theta sign d mn mx step : ℤ) : ℤ :=
  clamp_step (theta - sign * d) mn mx step

/-- The update-step component computation (`spsa_optimize.py` lines 131-133):
the float proposal `theta[k] - a_k * g[k] * step` is rounded to an integer
(`int(round(newv))`, here abstracted as the arbitrary integer `proposal`)
and then clamped+snapped. -/
def update_component (proposal mn mx step : ℤ) : ℤ :=
  clamp_step proposal mn mx step

/-- `py_round` of a nonnegative rational is nonnegative. -/
theorem py_round_nonneg (q : ℚ) (hq : 0 ≤ q) : 0 ≤ py_round q := by
  unfold py_round
  have hfloor : (0 : ℤ) ≤ ⌊q⌋ := Int.floor_nonneg.mpr hq
  split
  · exact hfloor
  · split
    · omega
    · split
      · exact hfloor
      · omega

/-- `clamp_step` at 215 over `{min:100, max:200, step:10}` evaluates to 200:
the clamp to 200 happens first, and 200 is already on the grid. -/
theorem clamp_step_215 : clamp_step 215 100 200 10 = 200 := by
  norm_num [clamp_step, py_round, min_def, max_def]

/-- Core invariant of `clamp_step`: when the domain is well formed
(`mn ≤ mx`, `step ≥ 1`, and `mx - mn` a multiple of `step`) the result lies
in `[mn, mx]` and on the grid `mn + ℤ·step`. -/
theorem clamp_step_grid (x mn mx step : ℤ) (hmn : mn ≤ mx) (hstep : 1 ≤ step)
    (hdvd : step ∣ (mx - mn)) :
    mn ≤ clamp_step x mn mx step ∧ clamp_step x mn mx step ≤ mx ∧
      step ∣ (clamp_step x mn mx step - mn) := by
  unfold clamp_step
  by_cases h1 : 1 < step
  · rw [if_pos h1]
    set r : ℤ := py_round (((max mn (min mx x) - mn : ℤ) : ℚ) / (step : ℚ)) * step + mn
      with hr
    refine ⟨le_max_left _ _, ?_, ?_⟩
    · exact max_le hmn (min_le_left _ _)
    · have hdvdr : step ∣ (r - mn) := ⟨_, by rw [hr]; ring⟩
      rcases le_total r mn with hle | hle
      · have : max mn (min mx r) = mn := by
          have : min mx r ≤ mn := le_trans (min_le_right _ _) hle
          omega
        rw [this]
        simp
      · rcases le_total r mx with hle2 | hle2
        · have : max mn (min mx r) = r := by
            have h2 : min mx r = r := min_eq_right hle2
            rw [h2]
            exact max_eq_right hle
          rw [this]
          exact hdvdr
        · have : max mn (min mx r) = mx := by
            have h2 : min mx r = mx := min_eq_left hle2
            rw [h2]
            exact max_eq_right hmn
          rw [this]
          exact hdvd
  · rw [if_neg h1]
    refine ⟨le_max_left _ _, max_le hmn (min_le_left _ _), ?_⟩
    have hs1 : step = 1 := by omega
    rw [hs1]
    exact one_dvd _

end SpsaOptimize

/-- The C5 counterexample: with the domain `{min:0, max:15, step:10}` (whose
width 15 is not a multiple of the step) and current value 15, a positive
perturbation of magnitude 10 stores 15: inside `[min, max]` but not a
multiple-of-step offset from `min`, contradicting the claim as stated. -/
theorem c5_counterexample :
    SpsaOptimize.theta_plus_component 15 1 10 0 15 10 = 15 ∧
      ¬ ((10 : ℤ) ∣ (15 - 0)) := by
  constructor
  · show SpsaOptimize.clamp_step 25 0 15 10 = 15
    norm_num [SpsaOptimize.clamp_step, SpsaOptimize.py_round, min_def, max_def]
  · decide

/-- C5 (amended): after every SPSA perturbation (`theta_plus`,
`theta_minus`) and after every update step, each stored component lies
within its declared `[min, max]` and equals `min` plus an integer multiple
of its declared `step`, provided the declared domain is well formed:
`min ≤ max`, `step ≥ 1`, and `max - min` a multiple of `step`.  (Without the
divisibility hypothesis the snapped value can round past `max` and be
clamped onto `max` itself, which may lie off the step grid, as
`c5_counterexample` shows.) -/
theorem c5_spsa_grid (theta sign d proposal mn mx step : ℤ)
    (hmn : mn ≤ mx) (hstep : 1 ≤ step) (hdvd : step ∣ (mx - mn)) :
    (mn ≤ SpsaOptimize.theta_plus_component theta sign d mn mx step ∧
      SpsaOptimize.theta_plus_component theta sign d mn mx step ≤ mx ∧
      step ∣ (SpsaOptimize.theta_plus_component theta sign d mn mx step - mn)) ∧
    (mn ≤ SpsaOptimize.theta_minus_component theta sign d mn mx step ∧
      SpsaOptimize.theta_minus_component theta sign d mn mx step ≤ mx ∧
      step ∣ (SpsaOptimize.theta_minus_component theta sign d mn mx step - mn)) ∧
    (mn ≤ SpsaOptimize.update_component proposal mn mx step ∧
      SpsaOptimize.update_component proposal mn mx step ≤ mx ∧
      step ∣ (SpsaOptimize.update_component proposal mn mx step - mn)) := by
  exact ⟨SpsaOptimize.clamp_step_grid _ mn mx step hmn hstep hdvd,
    SpsaOptimize.clamp_step_grid _ mn mx step hmn hstep hdvd,
    SpsaOptimize.clamp_step_grid _ mn mx step hmn hstep hdvd⟩

/-- Witness for `c5_spsa_grid`: the well-formed domain
`{min:100, max:200, step:10}` with `theta = 160`, `sign = 1`, `d = 23`,
`proposal = 131` satisfies all hypotheses, and the stored components are in
range and on the grid. -/
theorem c5_spsa_grid_witness :
    (100 : ℤ) ≤ 200 ∧ (1 : ℤ) ≤ 10 ∧ ((10 : ℤ) ∣ (200 - 100)) ∧
    (100 ≤ SpsaOptimize.theta_plus_component 160 1 23 100 200 10 ∧
      SpsaOptimize.theta_plus_component 160 1 23 100 200 10 ≤ 200 ∧
      (10 : ℤ) ∣ (SpsaOptimize.theta_plus_component 160 1 23 100 200 10 - 100)) := by
  refine ⟨by decide, by decide, by decide, ?_⟩
  exact ((c5_spsa_grid 160 1 23 131 100 200 10 (by decide) (by decide)
    (by decide))).1

/-- The C6 counterexample: `clamp_step(215, 100, 200, 10)` evaluates to 200,
not the 210 stated by the spec (210 even exceeds the declared maximum). -/
theorem c6_counterexample :
    SpsaOptimize.clamp_step 215 100 200 10 ≠ 210 := by
  rw [SpsaOptimize.clamp_step_215]
  decide

/-- C6 (amended): clamping and step-snapping an unclamped proposed value of
215 under the domain `{min:100, max:200, step:10}` stores 200 (the value is
first clamped to 200, which already lies on the step grid). -/
theorem c6_clamp_snap_215 :
    SpsaOptimize.clamp_step 215 100 200 10 = 200 :=
  SpsaOptimize.clamp_step_215

namespace ExtractEvalSpikes

/-- Embedding of the recursion inside `compute_spikes` from
`extract_eval_spikes.py` (lines 59-74): `i` is the 1-based enumeration index
of the next element and `prev` the previous evaluation; an element `sc` is
flagged when `|sc - prev| >= threshold`. -/
def spikes_from (threshold : ℤ) : ℕ → ℤ → List ℤ → List (ℕ × ℤ)
  | _, _, [] => []
  | i, prev, sc :: rest =>
      if threshold ≤ |sc - prev| then (i, sc - prev) :: spikes_from threshold (i + 1) sc rest
      else spikes_from threshold (i + 1) sc rest

/-- Embedding of `compute_spikes` from `extract_eval_spikes.py`
(lines 59-74): the first element (enumeration index 1) only initialises
`prev`; scanning proper starts at index 2. -/
def compute_spikes (evals : List ℤ) (threshold : ℤ) : List (ℕ × ℤ) :=
  match evals with
  | [] => []
  | e :: rest => spikes_from threshold 2 e rest

end ExtractEvalSpikes

namespace MakeTargetsFromLogs

/-- `compute_spikes` from `make_targets_from_logs.py` (lines 96-107); the
function body is textually identical to the one in
`extract_eval_spikes.py`, so it is embedded by the same definition. -/
def compute_spikes (evals : List ℤ) (threshold : ℤ) : List (ℕ × ℤ) :=
  ExtractEvalSpikes.compute_spikes evals threshold

end MakeTargetsFromLogs

/-- Membership characterisation of the spike scan: starting at enumeration
index `i0` with previous value `p`, the flagged pairs over `rest` are
exactly the adjacent deltas of `p :: rest` at offsets below `rest.length`
whose magnitude reaches the threshold. -/
theorem spikes_from_mem (T : ℤ) (rest : List ℤ) (i0 : ℕ) (p : ℤ)
    (j : ℕ) (d : ℤ) :
    (j, d) ∈ ExtractEvalSpikes.spikes_from T i0 p rest ↔
      ∃ m, m < rest.length ∧ j = i0 + m ∧
        d = rest.getD m 0 - (p :: rest).getD m 0 ∧ T ≤ |d| := by
  induction rest generalizing i0 p with
  | nil => simp [ExtractEvalSpikes.spikes_from]
  | cons sc rest ih =>
      simp only [ExtractEvalSpikes.spikes_from]
      constructor
      · intro hmem
        by_cases hT : T ≤ |sc - p|
        · rw [if_pos hT] at hmem
          rcases List.mem_cons.mp hmem with heq | htail
          · refine ⟨0, by simp, ?_, ?_, ?_⟩
            · exact (Prod.mk.injEq _ _ _ _ ▸ heq).1
            · have hd : d = sc - p := (Prod.mk.injEq _ _ _ _ ▸ heq).2
              simpa using hd
            · have hd : d = sc - p := (Prod.mk.injEq _ _ _ _ ▸ heq).2
              rw [hd]; exact hT
          · rcases (ih (i0 + 1) sc).mp htail with ⟨m, hm, hj, hd, hTd⟩
            exact ⟨m + 1, by simpa using hm, by omega, by simpa using hd, hTd⟩
        · rw [if_neg hT] at hmem
          rcases (ih (i0 + 1) sc).mp hmem with ⟨m, hm, hj, hd, hTd⟩
          exact ⟨m + 1, by simpa using hm, by omega, by simpa using hd, hTd⟩
      · rintro ⟨m, hm, hj, hd, hTd⟩
        cases m with
        | zero =>
            simp only [List.getD_cons_zero] at hd
            have hd2 : d = sc - p := by simpa using hd
            subst hd2
            rw [if_pos hTd]
            subst hj
            simp
        | succ m =>
            have htail : (j, d) ∈ ExtractEvalSpikes.spikes_from T (i0 + 1) sc rest := by
              refine (ih (i0 + 1) sc).mpr ⟨m, by simpa using hm, by omega, ?_, hTd⟩
              simpa using hd
            by_cases hT : T ≤ |sc - p|
            · rw [if_pos hT]; exact List.mem_cons_of_mem _ htail
            · rw [if_neg hT]; exact htail

/-- Membership characterisation of `compute_spikes` at top level. -/
theorem compute_spikes_mem (E : List ℤ) (T : ℤ) (j : ℕ) (d : ℤ) :
    (j, d) ∈ ExtractEvalSpikes.compute_spikes E T ↔
      2 ≤ j ∧ j ≤ E.length ∧ d = E.getD (j - 1) 0 - E.getD (j - 2) 0 ∧ T ≤ |d| := by
  cases E with
  | nil =>
      simp only [ExtractEvalSpikes.compute_spikes]
      simp only [List.not_mem_nil, false_iff, List.length_nil]
      omega
  | cons e rest =>
      rw [ExtractEvalSpikes.compute_spikes, spikes_from_mem]
      constructor
      · rintro ⟨m, hm, hj, hd, hTd⟩
        subst hj
        refine ⟨by omega, by simp; omega, ?_, hTd⟩
        have h1 : 2 + m - 1 = m + 1 := by omega
        have h2 : 2 + m - 2 = m := by omega
        rw [h1, h2]
        simpa using hd
      · rintro ⟨hj2, hjlen, hd, hTd⟩
        refine ⟨j - 2, by simp at hjlen; omega, by omega, ?_, hTd⟩
        have h1 : (e :: rest).getD (j - 1) 0 = rest.getD (j - 2) 0 := by
          have : j - 1 = (j - 2) + 1 := by omega
          rw [this]
          simp
        rw [h1] at hd
        exact hd

/-- C3: spike detection flags exactly the 1-based indices `i` in `[2, L]`
with `|E[i] - E[i-1]| >= T`, pairing each with the signed delta
`E[i] - E[i-1]` (0-based: `E.getD (i-1) 0 - E.getD (i-2) 0`); index 1 is
never flagged.  Both textually identical `compute_spikes` implementations
(`extract_eval_spikes.py` and `make_targets_from_logs.py`) are covered, and
the spec's concrete scenario (series `[50, 120, -280, -300]`, threshold 300,
spike exactly at index 3 with delta −400) is included. -/
theorem c3_spike_detection (E : List ℤ) (T : ℤ) (j : ℕ) (d : ℤ) :
    ((j, d) ∈ ExtractEvalSpikes.compute_spikes E T ↔
      2 ≤ j ∧ j ≤ E.length ∧ d = E.getD (j - 1) 0 - E.getD (j - 2) 0 ∧ T ≤ |d|) ∧
    ((j, d) ∈ MakeTargetsFromLogs.compute_spikes E T ↔
      2 ≤ j ∧ j ≤ E.length ∧ d = E.getD (j - 1) 0 - E.getD (j - 2) 0 ∧ T ≤ |d|) ∧
    ((1, d) ∉ ExtractEvalSpikes.compute_spikes E T) ∧
    ExtractEvalSpikes.compute_spikes [50, 120, -280, -300] 300 = [(3, -400)] := by
  refine ⟨compute_spikes_mem E T j d, ?_, ?_, by decide⟩
  · rw [MakeTargetsFromLogs.compute_spikes]
    exact compute_spikes_mem E T j d
  · intro hmem
    have h := (compute_spikes_mem E T 1 d).mp hmem
    omega

/-- One record of a `summary.json` result batch: `eval_cp` is the nullable
centipawn score and `depth` the recorded depth (`none` models a missing or
non-integer `depth` field, which the scripts default to `-1` via
`r.get('depth', -1)` and the `isinstance(d, int)` test). -/
structure Row where
  eval_cp : Option ℤ
  depth : Option ℤ
deriving DecidableEq, Repr

/-- Accumulator of the aggregation loop shared by
`summarize_drop_metrics.py` and `summarize_first_bad_metrics.py`. -/
structure MetricsAcc where
  valid : ℕ
  bad : ℕ
  cp_sum : ℤ
  depth_sum : ℤ
deriving DecidableEq, Repr

/-- The aggregate record printed by the metrics scripts (profile, total and
threshold fields aside): averages and the spike rate are exact rationals,
`none` encoding Python's `None`. -/
structure Metrics where
  total : ℕ
  valid : ℕ
  bad_count : ℕ
  spike_rate_percent : Option ℚ
  avg_cp : Option ℚ
  avg_depth : Option ℚ
deriving DecidableEq, Repr

namespace SummarizeDropMetrics

/-- One step of the aggregation loop of `summarize_drop_metrics.py`
(lines 22-31): a non-null score bumps `valid` and `cp_sum` (and `bad` when
`cp <= bad_th`); independently, a non-negative integer depth (missing depth
defaults to `-1`) is added to `depth_sum`. -/
def agg_step (bad_th : ℤ) (a : MetricsAcc) (r : Row) : MetricsAcc :=
  let a1 := match r.eval_cp with
    | some cp =>
        { a with valid := a.valid + 1, cp_sum := a.cp_sum + cp,
                 bad := if cp ≤ bad_th then a.bad + 1 else a.bad }
    | none => a
  if 0 ≤ r.depth.getD (-1) then
    { a1 with depth_sum := a1.depth_sum + r.depth.getD (-1) }
  else a1

/-- Embedding of the metric computation in `main` of
`summarize_drop_metrics.py` (lines 17-45): run the loop, then divide by
`valid` when it is non-zero and return `None` otherwise. -/
def aggregate (bad_th : ℤ) (rows : List Row) : Metrics :=
  let a := rows.foldl (agg_step bad_th) ⟨0, 0, 0, 0⟩
  { total := rows.length
    valid := a.valid
    bad_count := a.bad
    spike_rate_percent :=
      if a.valid = 0 then none else some ((a.bad : ℚ) / (a.valid : ℚ) * 100)
    avg_cp := if a.valid = 0 then none else some ((a.cp_sum : ℚ) / (a.valid : ℚ))
    avg_depth := if a.valid = 0 then none else some ((a.depth_sum : ℚ) / (a.valid : ℚ)) }

end SummarizeDropMetrics

namespace SummarizeFirstBadMetrics

/-- Embedding of `compute_metrics` from `summarize_first_bad_metrics.py`
(lines 70-97): the same loop as `summarize_drop_metrics.py` with the badness
threshold fixed at `-600`. -/
def compute_metrics (rows : List Row) : Metrics :=
  SummarizeDropMetrics.aggregate (-600) rows

end SummarizeFirstBadMetrics

/-- Spec-side count of results with a non-null score. -/
def valid_count (rows : List Row) : ℕ :=
  (rows.filter (fun r => r.eval_cp.isSome)).length

/-- Spec-side count of valid results with score at most the threshold. -/
def bad_count_spec (bad_th : ℤ) (rows : List Row) : ℕ :=
  (rows.filter (fun r => match r.eval_cp with
    | some cp => decide (cp ≤ bad_th)
    | none => false)).length

/-- Spec-side sum of all non-null scores. -/
def cp_sum_spec (rows : List Row) : ℤ :=
  (rows.filterMap (fun r => r.eval_cp)).sum

/-- Spec-side sum of all recorded non-negative depths, taken over every row
regardless of whether its score is null. -/
def depth_sum_spec (rows : List Row) : ℤ :=
  ((rows.map (fun r => r.depth.getD (-1))).filter (fun d => decide (0 ≤ d))).sum

/-- The `valid` component of one aggregation step. -/
theorem agg_step_valid (th : ℤ) (a : MetricsAcc) (r : Row) :
    (SummarizeDropMetrics.agg_step th a r).valid =
      a.valid + (if r.eval_cp.isSome then 1 else 0) := by
  simp only [SummarizeDropMetrics.agg_step]
  rcases hcp : r.eval_cp with _ | cp <;>
    by_cases hd : 0 ≤ r.depth.getD (-1) <;> simp [hcp, hd]

/-- The `bad` component of one aggregation step. -/
theorem agg_step_bad (th : ℤ) (a : MetricsAcc) (r : Row) :
    (SummarizeDropMetrics.agg_step th a r).bad =
      a.bad + (match r.eval_cp with
        | some cp => if cp ≤ th then 1 else 0
        | none => 0) := by
  simp only [SummarizeDropMetrics.agg_step]
  rcases hcp : r.eval_cp with _ | cp
  · by_cases hd : 0 ≤ r.depth.getD (-1) <;> simp [hcp, hd]
  · by_cases hd : 0 ≤ r.depth.getD (-1) <;> by_cases hb : cp ≤ th <;>
      simp [hcp, hd, hb]

/-- The `cp_sum` component of one aggregation step. -/
theorem agg_step_cp_sum (th : ℤ) (a : MetricsAcc) (r : Row) :
    (SummarizeDropMetrics.agg_step th a r).cp_sum =
      a.cp_sum + (match r.eval_cp with | some cp => cp | none => 0) := by
  simp only [SummarizeDropMetrics.agg_step]
  rcases hcp : r.eval_cp with _ | cp <;>
    by_cases hd : 0 ≤ r.depth.getD (-1) <;> simp [hcp, hd]

/-- The `depth_sum` component of one aggregation step. -/
theorem agg_step_depth_sum (th : ℤ) (a : MetricsAcc) (r : Row) :
    (SummarizeDropMetrics.agg_step th a r).depth_sum =
      a.depth_sum + (if 0 ≤ r.depth.getD (-1) then r.depth.getD (-1) else 0) := by
  simp only [SummarizeDropMetrics.agg_step]
  rcases hcp : r.eval_cp with _ | cp <;>
    by_cases hd : 0 ≤ r.depth.getD (-1) <;> simp [hcp, hd]

/-- The aggregation fold computes exactly the four spec-side quantities. -/
theorem agg_fold_spec (bad_th : ℤ) (rows : List Row) (a : MetricsAcc) :
    rows.foldl (SummarizeDropMetrics.agg_step bad_th) a =
      ⟨a.valid + valid_count rows, a.bad + bad_count_spec bad_th rows,
        a.cp_sum + cp_sum_spec rows, a.depth_sum + depth_sum_spec rows⟩ := by
  induction rows generalizing a with
  | nil => simp [valid_count, bad_count_spec, cp_sum_spec, depth_sum_spec]
  | cons r rows ih =>
      rw [List.foldl_cons, ih]
      simp only [MetricsAcc.mk.injEq]
      refine ⟨?_, ?_, ?_, ?_⟩
      · rw [agg_step_valid]
        have : valid_count (r :: rows) =
            (if r.eval_cp.isSome then 1 else 0) + valid_count rows := by
          simp only [valid_count, List.filter_cons]
          by_cases h : r.eval_cp.isSome <;> simp [h] <;> omega
        rw [this]
        omega
      · rw [agg_step_bad]
        have : bad_count_spec bad_th (r :: rows) =
            (match r.eval_cp with
              | some cp => if cp ≤ bad_th then 1 else 0
              | none => 0) + bad_count_spec bad_th rows := by
          simp only [bad_count_spec, List.filter_cons]
          rcases hcp : r.eval_cp with _ | cp
          · simp
          · by_cases hb : cp ≤ bad_th <;> simp [hb] <;> omega
        rw [this]
        omega
      · rw [agg_step_cp_sum]
        have : cp_sum_spec (r :: rows) =
            (match r.eval_cp with | some cp => cp | none => 0) + cp_sum_spec rows := by
          simp only [cp_sum_spec, List.filterMap_cons]
          rcases hcp : r.eval_cp with _ | cp <;> simp
        rw [this]
        ring
      · rw [agg_step_depth_sum]
        have : depth_sum_spec (r :: rows) =
            (if 0 ≤ r.depth.getD (-1) then r.depth.getD (-1) else 0) +
              depth_sum_spec rows := by
          simp only [depth_sum_spec, List.map_cons, List.filter_cons]
          by_cases hd : 0 ≤ r.depth.getD (-1) <;> simp [hd]
        rw [this]
        ring

/-- Closed form of the whole aggregate record in terms of the spec-side
counts and sums. -/
theorem aggregate_spec (th : ℤ) (rows : List Row) :
    SummarizeDropMetrics.aggregate th rows =
      { total := rows.length
        valid := valid_count rows
        bad_count := bad_count_spec th rows
        spike_rate_percent :=
          if valid_count rows = 0 then none
          else some ((bad_count_spec th rows : ℚ) / (valid_count rows : ℚ) * 100)
        avg_cp :=
          if valid_count rows = 0 then none
          else some ((cp_sum_spec rows : ℚ) / (valid_count rows : ℚ))
        avg_depth :=
          if valid_count rows = 0 then none
          else some ((depth_sum_spec rows : ℚ) / (valid_count rows : ℚ)) } := by
  unfold SummarizeDropMetrics.aggregate
  rw [agg_fold_spec]
  simp

/-- C4: `valid` counts the results with a non-null `eval_cp`, `badCount`
counts the valid results with `eval_cp <= badThreshold`, and
`spikeRatePercent` is null exactly when `valid = 0` and otherwise equals
`badCount / valid * 100`; the spec's concrete batch
`[{cp:-700},{cp:-100},{cp:null}]` at threshold `-600` yields `valid = 2`,
`badCount = 1`, `spikeRatePercent = 50`. -/
theorem c4_metrics_aggregation (th : ℤ) (rows : List Row) :
    (SummarizeDropMetrics.aggregate th rows).valid = valid_count rows ∧
    (SummarizeDropMetrics.aggregate th rows).bad_count = bad_count_spec th rows ∧
    ((SummarizeDropMetrics.aggregate th rows).spike_rate_percent = none ↔
      valid_count rows = 0) ∧
    (SummarizeDropMetrics.aggregate th rows).spike_rate_percent =
      (if valid_count rows = 0 then none
       else some ((bad_count_spec th rows : ℚ) / (valid_count rows : ℚ) * 100)) ∧
    (SummarizeDropMetrics.aggregate (-600)
        [⟨some (-700), none⟩, ⟨some (-100), none⟩, ⟨none, none⟩]).valid = 2 ∧
    (SummarizeDropMetrics.aggregate (-600)
        [⟨some (-700), none⟩, ⟨some (-100), none⟩, ⟨none, none⟩]).bad_count = 1 ∧
    (SummarizeDropMetrics.aggregate (-600)
        [⟨some (-700), none⟩, ⟨some (-100), none⟩, ⟨none, none⟩]).spike_rate_percent =
      some 50 := by
  rw [aggregate_spec, aggregate_spec]
  refine ⟨rfl, rfl, ?_, rfl, by decide, by decide, ?_⟩
  · by_cases h : valid_count rows = 0 <;> simp [h]
  · have hv : valid_count
        [({ eval_cp := some (-700), depth := none } : Row),
         { eval_cp := some (-100), depth := none },
         { eval_cp := none, depth := none }] = 2 := by decide
    have hb : bad_count_spec (-600)
        [({ eval_cp := some (-700), depth := none } : Row),
         { eval_cp := some (-100), depth := none },
         { eval_cp := none, depth := none }] = 1 := by decide
    simp only [hv, hb]
    norm_num

/-- C10: when `valid > 0` the reported `avg_depth` is the sum of `depth`
over all rows whose depth is a non-negative integer — null-score rows
included — divided by `valid`, the count of rows with a non-null `eval_cp`
(`avg_depth` is null when `valid = 0`).  This holds for both
`summarize_drop_metrics.py` and `compute_metrics` of
`summarize_first_bad_metrics.py`; the concrete instance shows a row with a
null score and depth 10 contributing to the numerator but not the
denominator (`avg_depth = (10 + 2) / 1 = 12`). -/
theorem c10_avg_depth (th : ℤ) (rows : List Row) :
    (SummarizeDropMetrics.aggregate th rows).avg_depth =
      (if valid_count rows = 0 then none
       else some ((depth_sum_spec rows : ℚ) / (valid_count rows : ℚ))) ∧
    (SummarizeDropMetrics.aggregate th rows).valid = valid_count rows ∧
    (SummarizeFirstBadMetrics.compute_metrics rows).avg_depth =
      (if valid_count rows = 0 then none
       else some ((depth_sum_spec rows : ℚ) / (valid_count rows : ℚ))) ∧
    (SummarizeDropMetrics.aggregate 0
        [⟨none, some 10⟩, ⟨some 0, some 2⟩]).avg_depth = some 12 := by
  refine ⟨?_, ?_, ?_, ?_⟩
  · rw [aggregate_spec]
  · rw [aggregate_spec]
  · rw [SummarizeFirstBadMetrics.compute_metrics, aggregate_spec]
  · rw [aggregate_spec]
    have hv : valid_count
        [({ eval_cp := none, depth := some 10 } : Row),
         { eval_cp := some 0, depth := some 2 }] = 1 := by decide
    have hd : depth_sum_spec
        [({ eval_cp := none, depth := some 10 } : Row),
         { eval_cp := some 0, depth := some 2 }] = 12 := by decide
    simp only [hv, hd]
    norm_num

namespace RunEvalTargets

/-- Embedding of the "parse last cp" scan at the end of `run_one` in
`run_eval_targets.py` (lines 86-93).  Each session line is either `none`
(no `info depth <d> ... score cp <n>` match) or `some (d, cp)`; the scan
keeps the pair whenever `d >= last_depth`, starting from
`last_cp = None, last_depth = -1`. -/
def parse_last_cp (lines : List (Option (ℕ × ℤ))) : Option ℤ × ℤ :=
  lines.foldl
    (fun s l => match l with
      | none => s
      | some dc => if s.2 ≤ (dc.1 : ℤ) then (some dc.2, (dc.1 : ℤ)) else s)
    (none, -1)

end RunEvalTargets

namespace RunEvalTargetsParams

/-- The scan at the end of `run_one` in `run_eval_targets_params.py`
(lines 77-85); the loop is textually identical to the one in
`run_eval_targets.py`, so it is embedded by the same definition. -/
def parse_last_cp (lines : List (Option (ℕ × ℤ))) : Option ℤ × ℤ :=
  RunEvalTargets.parse_last_cp lines

end RunEvalTargetsParams

/-- Spec-side highest depth among the matched evaluation-info lines. -/
def max_depth (infos : List (ℕ × ℤ)) : ℕ :=
  infos.foldl (fun a x => max a x.1) 0

/-- Spec-side retained pair, following the claim's words: the score of the
last occurrence at the highest depth seen, `none` (with depth `-1`) when no
cp-carrying evaluation-info line was observed. -/
def retained_spec (infos : List (ℕ × ℤ)) : Option ℤ × ℤ :=
  ((infos.filter (fun x => x.1 == max_depth infos)).getLast?.map (fun x => x.2),
    if infos.isEmpty then (-1 : ℤ) else (max_depth infos : ℤ))

/-- Appending one reading updates `max_depth` by a binary max. -/
theorem max_depth_append (infos : List (ℕ × ℤ)) (x : ℕ × ℤ) :
    max_depth (infos ++ [x]) = max (max_depth infos) x.1 := by
  simp [max_depth, List.foldl_append]

/-- Appending one reading updates `retained_spec` exactly the way the scan
in `run_one` updates its `(last_cp, last_depth)` state. -/
theorem retained_spec_append (infos : List (ℕ × ℤ)) (d : ℕ) (cp : ℤ) :
    retained_spec (infos ++ [(d, cp)]) =
      if (retained_spec infos).2 ≤ (d : ℤ) then (some cp, (d : ℤ))
      else retained_spec infos := by
  rcases eq_or_ne infos [] with hnil | hne
  · subst hnil
    have hd : ((-1 : ℤ)) ≤ (d : ℤ) := by omega
    simp [retained_spec, max_depth, hd]
  · have hemp : infos.isEmpty = false := by
      simp [List.isEmpty_iff, hne]
    have hemp2 : (infos ++ [(d, cp)]).isEmpty = false := by
      simp
    have hsnd : (retained_spec infos).2 = (max_depth infos : ℤ) := by
      simp [retained_spec, hemp]
    by_cases hMd : max_depth infos ≤ d
    · have hmax : max_depth (infos ++ [(d, cp)]) = d := by
        rw [max_depth_append]
        exact max_eq_right hMd
      have hcond : (retained_spec infos).2 ≤ (d : ℤ) := by
        rw [hsnd]
        exact_mod_cast hMd
      rw [if_pos hcond]
      unfold retained_spec
      rw [hmax, hemp2]
      simp only [Bool.false_eq_true, if_false, Prod.mk.injEq]
      constructor
      · rw [List.filter_append]
        have hx : List.filter (fun x => x.1 == d) [(d, cp)] = [(d, cp)] := by simp
        rw [hx, List.getLast?_concat]
        rfl
      · trivial
    · have hmax : max_depth (infos ++ [(d, cp)]) = max_depth infos := by
        rw [max_depth_append]
        exact max_eq_left (by omega)
      have hcond : ¬ (retained_spec infos).2 ≤ (d : ℤ) := by
        rw [hsnd]
        intro hcontra
        have : max_depth infos ≤ d := by exact_mod_cast hcontra
        omega
      rw [if_neg hcond]
      unfold retained_spec
      rw [hmax, hemp2, hemp]
      simp only [Bool.false_eq_true, if_false, Prod.mk.injEq]
      constructor
      · rw [List.filter_append]
        have hx : List.filter (fun x => x.1 == max_depth infos) [(d, cp)] = [] := by
          simp
          omega
        rw [hx, List.append_nil]
      · trivial

/-- The scan of `run_one` computes exactly the spec-side retained pair over
the cp-carrying lines. -/
theorem parse_last_cp_spec (lines : List (Option (ℕ × ℤ))) :
    RunEvalTargets.parse_last_cp lines = retained_spec (lines.filterMap id) := by
  induction lines using List.reverseRecOn with
  | nil => simp [RunEvalTargets.parse_last_cp, retained_spec, max_depth]
  | append_singleton l x ih =>
      have hfold : RunEvalTargets.parse_last_cp (l ++ [x]) =
          (match x with
            | none => RunEvalTargets.parse_last_cp l
            | some dc =>
                if (RunEvalTargets.parse_last_cp l).2 ≤ (dc.1 : ℤ)
                then (some dc.2, (dc.1 : ℤ))
                else RunEvalTargets.parse_last_cp l) := by
        simp only [RunEvalTargets.parse_last_cp, List.foldl_append, List.foldl_cons,
          List.foldl_nil]
      rcases x with _ | ⟨dd, cp⟩
      · rw [hfold]
        have : (l ++ [(none : Option (ℕ × ℤ))]).filterMap id = l.filterMap id := by
          simp
        rw [this, ih]
      · rw [hfold]
        have : (l ++ [some (dd, cp)]).filterMap id = l.filterMap id ++ [(dd, cp)] := by
          simp
        rw [this, retained_spec_append, ih]

/-- C7: for each engine session, the retained (score, depth) pair is the one
with the highest depth among the cp-carrying evaluation-info lines, ties at
equal depth resolved in favour of the later occurrence; with no cp-carrying
line the retained score is null (and the depth stays `-1`).  Both textually
identical scans (`run_eval_targets.py` and `run_eval_targets_params.py`) are
covered, and a concrete tie-breaking instance (depths 3, 5, 5, 4 with a
non-matching line interleaved) retains the later depth-5 score. -/
theorem c7_retained_pair (lines : List (Option (ℕ × ℤ))) :
    RunEvalTargets.parse_last_cp lines = retained_spec (lines.filterMap id) ∧
    RunEvalTargetsParams.parse_last_cp lines = retained_spec (lines.filterMap id) ∧
    RunEvalTargets.parse_last_cp [] = (none, -1) ∧
    RunEvalTargets.parse_last_cp
        [some (3, 10), none, some (5, 20), some (5, 30), some (4, 40)] =
      (some 30, 5) := by
  refine ⟨parse_last_cp_spec lines, ?_, by decide, by decide⟩
  rw [RunEvalTargetsParams.parse_last_cp]
  exact parse_last_cp_spec lines

namespace ExtractEvalSpikes

/-- A transcript line, as classified by the regex scan in `parse_log` of
`extract_eval_spikes.py` (lines 14-56): an evaluation-info line carrying a
cp score, one carrying a mate count, a decision (`bestmove`) line, or any
other line (including those dropped by the include/exclude filters). -/
inductive LogEvent where
  | info_cp (v : ℤ)
  | info_mate (v : ℤ)
  | best (m : String)
  | other
deriving DecidableEq, Repr

/-- Whether an event is a decision line. -/
def LogEvent.isBest : LogEvent → Bool
  | .best _ => true
  | _ => false

/-- Whether an event is neither an info line nor a decision line. -/
def LogEvent.isOther : LogEvent → Bool
  | .other => true
  | _ => false

/-- The loop state of `parse_log`: the evaluation seen since the previous
decision (`cur_eval`), the recorded per-ply evaluations, and the recorded
moves. -/
structure ParseState where
  cur : Option ℤ
  evals : List ℤ
  moves : List String
deriving DecidableEq, Repr

/-- One iteration of the `parse_log` loop: a cp line sets `cur_eval`; a mate
line sets it to `±100000` by the sign of the mate count; a `bestmove` line
appends `cur_eval` — or, when `cur_eval` is `None`, the previous sample
(`evals[-1]`) or 0 when no sample exists — and resets `cur_eval`. -/
def parse_step (s : ParseState) : LogEvent → ParseState
  | .info_cp v => { s with cur := some v }
  | .info_mate v => { s with cur := some (if 0 < v then 100000 else -100000) }
  | .best m =>
      { cur := none
        evals := s.evals ++
          [match s.cur with
            | some c => c
            | none => (s.evals.getLast?).getD 0]
        moves := s.moves ++ [m] }
  | .other => s

/-- Embedding of `parse_log` from `extract_eval_spikes.py` (lines 14-56):
fold the loop over the classified lines and return the evaluation and move
series. -/
def parse_log (events : List LogEvent) : List ℤ × List String :=
  ((events.foldl parse_step ⟨none, [], []⟩).evals,
    (events.foldl parse_step ⟨none, [], []⟩).moves)

end ExtractEvalSpikes

namespace MakeTargetsFromMoves

/-- One JSONL record of `make_targets_from_moves.py`: `eval_cp` is present
when the record carries an integer cp score, `eval_mate` when it carries an
integer mate count (`isinstance` tests in the source). -/
structure MoveRec where
  eval_cp : Option ℤ
  eval_mate : Option ℤ
deriving DecidableEq, Repr

/-- The evaluation-fill state of the per-game loop in
`make_targets_from_moves.py` (`cur_eval` plus the series built so far). -/
structure FillState where
  cur : Option ℤ
  evals : List ℤ
deriving DecidableEq, Repr

/-- One iteration of the eval-fill loop of `make_targets_from_moves.py`
(lines 164-176): a cp reading (or, failing that, a mate reading normalised
to `±100000`) overwrites `cur_eval`; a record with neither reading keeps the
previous `cur_eval`, falling back to `evals[-1]` or 0; the resulting value
is appended. -/
def fill_step (s : FillState) (r : MoveRec) : FillState :=
  match (match r.eval_cp with
    | some c => some c
    | none =>
        match r.eval_mate with
        | some mv => some (if 0 < mv then (100000 : ℤ) else -100000)
        | none => none) with
  | some c => { cur := some c, evals := s.evals ++ [c] }
  | none =>
      match s.cur with
      | some c => { cur := some c, evals := s.evals ++ [c] }
      | none =>
          { cur := some ((s.evals.getLast?).getD 0)
            evals := s.evals ++ [(s.evals.getLast?).getD 0] }

/-- The per-game evaluation series built by `make_targets_from_moves.py`. -/
def fill_evals (recs : List MoveRec) : List ℤ :=
  (recs.foldl fill_step ⟨none, []⟩).evals

end MakeTargetsFromMoves

/-- Events that are not decisions never touch the recorded series or
moves. -/
theorem parse_no_best_evals (l : List ExtractEvalSpikes.LogEvent)
    (s : ExtractEvalSpikes.ParseState)
    (h : ∀ e ∈ l, e.isBest = false) :
    (l.foldl ExtractEvalSpikes.parse_step s).evals = s.evals := by
  induction l generalizing s with
  | nil => rfl
  | cons e l ih =>
      have he : e.isBest = false := h e (by simp)
      have hl : ∀ e ∈ l, e.isBest = false := fun x hx => h x (by simp [hx])
      rw [List.foldl_cons, ih _ hl]
      cases e <;> simp [ExtractEvalSpikes.parse_step] <;>
        simp [ExtractEvalSpikes.LogEvent.isBest] at he

/-- Events that are mere noise preserve the whole parse state. -/
theorem parse_other_id (l : List ExtractEvalSpikes.LogEvent)
    (s : ExtractEvalSpikes.ParseState)
    (h : ∀ e ∈ l, e.isOther = true) :
    l.foldl ExtractEvalSpikes.parse_step s = s := by
  induction l generalizing s with
  | nil => rfl
  | cons e l ih =>
      have he : e.isOther = true := h e (by simp)
      have hl : ∀ e ∈ l, e.isOther = true := fun x hx => h x (by simp [hx])
      rw [List.foldl_cons]
      cases e <;> simp [ExtractEvalSpikes.LogEvent.isOther] at he <;>
        simp [ExtractEvalSpikes.parse_step, ih _ hl]

/-- After a decision line, `cur_eval` has been reset. -/
theorem parse_cur_after_best (l : List ExtractEvalSpikes.LogEvent) (mm : String)
    (s : ExtractEvalSpikes.ParseState) :
    ((l ++ [ExtractEvalSpikes.LogEvent.best mm]).foldl
      ExtractEvalSpikes.parse_step s).cur = none := by
  simp [List.foldl_append, ExtractEvalSpikes.parse_step]

/-- The fill state of `make_targets_from_moves.py` keeps `cur_eval` in sync
with the last recorded sample. -/
theorem fill_cur_invariant (recs : List MakeTargetsFromMoves.MoveRec) :
    ((recs.foldl MakeTargetsFromMoves.fill_step ⟨none, []⟩).cur = none ∧
      (recs.foldl MakeTargetsFromMoves.fill_step ⟨none, []⟩).evals = []) ∨
    (∃ c, (recs.foldl MakeTargetsFromMoves.fill_step ⟨none, []⟩).cur = some c ∧
      (recs.foldl MakeTargetsFromMoves.fill_step ⟨none, []⟩).evals.getLast? =
        some c) := by
  induction recs using List.reverseRecOn with
  | nil => left; exact ⟨rfl, rfl⟩
  | append_singleton l r ih =>
      right
      rw [List.foldl_append, List.foldl_cons, List.foldl_nil]
      set s := l.foldl MakeTargetsFromMoves.fill_step ⟨none, []⟩ with hs
      simp only [MakeTargetsFromMoves.fill_step]
      rcases hcp : r.eval_cp with _ | c
      · rcases hmate : r.eval_mate with _ | mv
        · rcases hcur : s.cur with _ | c0
          · exact ⟨(s.evals.getLast?).getD 0, rfl, by simp [List.getLast?_concat]⟩
          · exact ⟨c0, rfl, by simp [List.getLast?_concat]⟩
        · exact ⟨if 0 < mv then (100000 : ℤ) else -100000, rfl,
            by simp [List.getLast?_concat]⟩
      · exact ⟨c, rfl, by simp [List.getLast?_concat]⟩

/-- C8: during transcript parsing, a mate reading records `+100000` when the
mate count is positive and `-100000` otherwise, and a decision line with no
evaluation seen since the previous decision records the previous sample's
evaluation (or 0 when no sample exists).  Covered for `parse_log` of
`extract_eval_spikes.py` (first two conjuncts: a mate reading immediately
before the decision, possibly after non-decision noise `es2`, records its
normalised value; a decision reached, after noise `es3`, with `cur_eval`
still reset records the carried-forward sample) and for the textually
analogous fill loop of `make_targets_from_moves.py` (last two conjuncts). -/
theorem c8_mate_and_carry (es es2 es3 : List ExtractEvalSpikes.LogEvent)
    (v : ℤ) (m m2 : String)
    (recs : List MakeTargetsFromMoves.MoveRec) (w : ℤ)
    (h1 : es = [] ∨ ∃ es0 mm, es = es0 ++ [ExtractEvalSpikes.LogEvent.best mm])
    (h2 : ∀ e ∈ es2, e.isBest = false)
    (h3 : ∀ e ∈ es3, e.isOther = true) :
    (ExtractEvalSpikes.parse_log
        (es ++ es2 ++ [.info_mate v, .best m])).1 =
      (ExtractEvalSpikes.parse_log es).1 ++
        [if 0 < v then 100000 else -100000] ∧
    (ExtractEvalSpikes.parse_log (es ++ es3 ++ [.best m2])).1 =
      (ExtractEvalSpikes.parse_log es).1 ++
        [((ExtractEvalSpikes.parse_log es).1.getLast?).getD 0] ∧
    MakeTargetsFromMoves.fill_evals (recs ++ [⟨none, some w⟩]) =
      MakeTargetsFromMoves.fill_evals recs ++
        [if 0 < w then 100000 else -100000] ∧
    MakeTargetsFromMoves.fill_evals (recs ++ [⟨none, none⟩]) =
      MakeTargetsFromMoves.fill_evals recs ++
        [(MakeTargetsFromMoves.fill_evals recs).getLast?.getD 0] := by
  refine ⟨?_, ?_, ?_, ?_⟩
  · show ((es ++ es2 ++ [ExtractEvalSpikes.LogEvent.info_mate v,
        ExtractEvalSpikes.LogEvent.best m]).foldl
          ExtractEvalSpikes.parse_step ⟨none, [], []⟩).evals = _
    rw [List.foldl_append, List.foldl_append, List.foldl_cons, List.foldl_cons,
      List.foldl_nil]
    set s := es.foldl ExtractEvalSpikes.parse_step ⟨none, [], []⟩ with hsdef
    have hevals : (es2.foldl ExtractEvalSpikes.parse_step s).evals = s.evals :=
      parse_no_best_evals es2 s h2
    set s2 := es2.foldl ExtractEvalSpikes.parse_step s with hs2def
    show (ExtractEvalSpikes.parse_step
      (ExtractEvalSpikes.parse_step s2 (.info_mate v)) (.best m)).evals = _
    simp only [ExtractEvalSpikes.parse_step]
    rw [hevals]
    rfl
  · show ((es ++ es3 ++ [ExtractEvalSpikes.LogEvent.best m2]).foldl
        ExtractEvalSpikes.parse_step ⟨none, [], []⟩).evals = _
    rw [List.foldl_append, List.foldl_append, List.foldl_cons, List.foldl_nil]
    set s := es.foldl ExtractEvalSpikes.parse_step ⟨none, [], []⟩ with hsdef
    have hs3 : es3.foldl ExtractEvalSpikes.parse_step s = s :=
      parse_other_id es3 s h3
    rw [hs3]
    have hcur : s.cur = none := by
      rcases h1 with hnil | ⟨es0, mm, hconcat⟩
      · rw [hsdef, hnil]
        rfl
      · rw [hsdef, hconcat]
        exact parse_cur_after_best es0 mm _
    show (ExtractEvalSpikes.parse_step s (.best m2)).evals = _
    simp only [ExtractEvalSpikes.parse_step, hcur]
    rfl
  · show ((recs ++ [MakeTargetsFromMoves.MoveRec.mk none (some w)]).foldl
        MakeTargetsFromMoves.fill_step ⟨none, []⟩).evals = _
    rw [List.foldl_append, List.foldl_cons, List.foldl_nil]
    simp only [MakeTargetsFromMoves.fill_step]
    rfl
  · show ((recs ++ [MakeTargetsFromMoves.MoveRec.mk none none]).foldl
        MakeTargetsFromMoves.fill_step ⟨none, []⟩).evals = _
    rw [List.foldl_append, List.foldl_cons, List.foldl_nil]
    set s := recs.foldl MakeTargetsFromMoves.fill_step ⟨none, []⟩ with hsdef
    rcases fill_cur_invariant recs with ⟨hcur, hevals⟩ | ⟨c, hcur, hlast⟩
    · rw [← hsdef] at hcur hevals
      simp only [MakeTargetsFromMoves.fill_step, hcur]
      rw [MakeTargetsFromMoves.fill_evals, ← hsdef, hevals]
    · rw [← hsdef] at hcur hlast
      simp only [MakeTargetsFromMoves.fill_step, hcur]
      rw [MakeTargetsFromMoves.fill_evals, ← hsdef, hlast]
      rfl

/-- Witness for `c8_mate_and_carry`: the empty prefix, one noise line before
the mate reading, and an empty noise segment before the bare decision
satisfy all the hypotheses; a negative mate count records `-100000` and the
sample-free decision records 0. -/
theorem c8_mate_and_carry_witness :
    (ExtractEvalSpikes.parse_log
        (([] : List ExtractEvalSpikes.LogEvent) ++ [.other] ++
          [.info_mate (-2), .best "a"])).1 =
      (ExtractEvalSpikes.parse_log ([] : List ExtractEvalSpikes.LogEvent)).1 ++
        [if (0 : ℤ) < -2 then 100000 else -100000] ∧
    (ExtractEvalSpikes.parse_log
        (([] : List ExtractEvalSpikes.LogEvent) ++ [] ++ [.best "b"])).1 =
      (ExtractEvalSpikes.parse_log ([] : List ExtractEvalSpikes.LogEvent)).1 ++
        [((ExtractEvalSpikes.parse_log
            ([] : List ExtractEvalSpikes.LogEvent)).1.getLast?).getD 0] ∧
    MakeTargetsFromMoves.fill_evals
        (([] : List MakeTargetsFromMoves.MoveRec) ++ [⟨none, some 1⟩]) =
      MakeTargetsFromMoves.fill_evals ([] : List MakeTargetsFromMoves.MoveRec) ++
        [if (0 : ℤ) < 1 then 100000 else -100000] ∧
    MakeTargetsFromMoves.fill_evals
        (([] : List MakeTargetsFromMoves.MoveRec) ++ [⟨none, none⟩]) =
      MakeTargetsFromMoves.fill_evals ([] : List MakeTargetsFromMoves.MoveRec) ++
        [(MakeTargetsFromMoves.fill_evals
            ([] : List MakeTargetsFromMoves.MoveRec)).getLast?.getD 0] :=
  c8_mate_and_carry [] [.other] [] (-2) "a" "b" [] 1
    (Or.inl rfl)
    (by intro e he; simp at he; subst he; rfl)
    (by intro e he; simp at he)

namespace MakeTargetsFromLogs

/-- The slice of a `parse_bestmoves_with_positions` record that target
generation reads: the `pos_after` position following the bestmove (the
other fields drive only the summary output). -/
structure BestRec where
  pos_after : Option PosLine
deriving DecidableEq, Repr

/-- One generated target record (`make_targets_from_logs.py` lines
174-184). -/
structure Target where
  tag : String
  pre_position : PosLine
  origin_log : String
  origin_ply : ℕ
  origin_delta : ℤ
  back_plies : ℕ
deriving DecidableEq, Repr

/-- The target record built for spike `(ply, delta)` at rewind depth `k`
with resulting position `p`: the tag is
`{splitext(base)[0]}_ply{ply}_back{k}`, `base` the origin log name and
`stem` its extension-free stem. -/
def target_of (base stem : String) (ply : ℕ) (delta : ℤ) (k : ℕ)
    (p : PosLine) : Target :=
  ⟨stem ++ "_ply" ++ toString ply ++ "_back" ++ toString k,
    p, base, ply, delta, k⟩

/-- Python's `range(back_min, back_max + 1)`. -/
def k_range (bmin bmax : ℕ) : List ℕ :=
  List.range' bmin (bmax + 1 - bmin)

/-- The inner rewind-depth loop of `main` (lines 167-184): for each `k`,
chop the position; skip a falsy result (`if not pos: continue`), skip a
position already in the dedup set (`if pos in uniq_positions: continue`),
otherwise extend both the dedup set and the emitted targets. -/
def gen_ks (base stem : String) (ply : ℕ) (delta : ℤ)
    (pos_after : Option PosLine) :
    List ℕ → List PosLine × List Target → List PosLine × List Target
  | [], acc => acc
  | k :: ks, acc =>
      match chop_moves pos_after k with
      | none => gen_ks base stem ply delta pos_after ks acc
      | some p =>
          if p = .bare "" then gen_ks base stem ply delta pos_after ks acc
          else if acc.1.contains p then gen_ks base stem ply delta pos_after ks acc
          else gen_ks base stem ply delta pos_after ks
            (acc.1 ++ [p], acc.2 ++ [target_of base stem ply delta k p])

/-- The outer spike loop of `main` (lines 163-184): spikes whose ply falls
outside `[1, len(best)]` are skipped, otherwise the rewind-depth loop runs
on `best[ply - 1].pos_after`, threading the shared dedup set. -/
def gen_spikes (base stem : String) (best : List BestRec) (bmin bmax : ℕ) :
    List (ℕ × ℤ) → List PosLine × List Target → List PosLine × List Target
  | [], acc => acc
  | sd :: rest, acc =>
      if sd.1 < 1 ∨ best.length < sd.1 then
        gen_spikes base stem best bmin bmax rest acc
      else
        gen_spikes base stem best bmin bmax rest
          (gen_ks base stem sd.1 sd.2 ((best.getD (sd.1 - 1) ⟨none⟩).pos_after)
            (k_range bmin bmax) acc)

/-- The target batch generated for one log: the outer loop started with an
empty dedup set and no targets. -/
def make_targets (base stem : String) (best : List BestRec) (bmin bmax : ℕ)
    (spikes : List (ℕ × ℤ)) : List Target :=
  (gen_spikes base stem best bmin bmax spikes ([], [])).2

/-- Spec-side candidate stream of the rewind-depth loop: every `(spike, k)`
pair that yields a truthy chopped position, in processing order and without
any deduplication. -/
def cand_ks (base stem : String) (ply : ℕ) (delta : ℤ)
    (pos_after : Option PosLine) (ks : List ℕ) : List Target :=
  ks.filterMap (fun k =>
    match chop_moves pos_after k with
    | none => none
    | some p =>
        if p = .bare "" then none else some (target_of base stem ply delta k p))

/-- Spec-side candidate stream of the whole batch. -/
def candidates (base stem : String) (best : List BestRec) (bmin bmax : ℕ)
    (spikes : List (ℕ × ℤ)) : List Target :=
  spikes.flatMap (fun sd =>
    if sd.1 < 1 ∨ best.length < sd.1 then []
    else cand_ks base stem sd.1 sd.2 ((best.getD (sd.1 - 1) ⟨none⟩).pos_after)
      (k_range bmin bmax))

/-- Spec-side first-occurrence deduplication by resulting position, exactly
the claim's "when several produce the same string, only the first one
processed is emitted". -/
def dedup_first (seen : List PosLine) : List Target → List Target
  | [] => []
  | t :: ts =>
      if seen.contains t.pre_position then dedup_first seen ts
      else t :: dedup_first (seen ++ [t.pre_position]) ts

end MakeTargetsFromLogs

/-- First-occurrence dedup distributes over append, carrying the kept
positions into the seen set. -/
theorem dedup_first_append (a b : List MakeTargetsFromLogs.Target)
    (seen : List PosLine) :
    MakeTargetsFromLogs.dedup_first seen (a ++ b) =
      MakeTargetsFromLogs.dedup_first seen a ++
        MakeTargetsFromLogs.dedup_first
          (seen ++ (MakeTargetsFromLogs.dedup_first seen a).map
            (fun t => t.pre_position)) b := by
  induction a generalizing seen with
  | nil => simp [MakeTargetsFromLogs.dedup_first]
  | cons t a ih =>
      simp only [List.cons_append, MakeTargetsFromLogs.dedup_first, List.append_eq]
      by_cases hc : seen.contains t.pre_position
      · rw [if_pos hc, if_pos hc, ih]
      · rw [if_neg hc, if_neg hc, ih]
        simp

/-- The inner rewind loop equals first-occurrence dedup of its candidate
stream, appended to the incoming accumulator, with the dedup set tracking
the emitted positions. -/
theorem gen_ks_spec (base stem : String) (ply : ℕ) (delta : ℤ)
    (pos_after : Option PosLine) (ks : List ℕ)
    (uniq : List PosLine) (targets : List MakeTargetsFromLogs.Target) :
    MakeTargetsFromLogs.gen_ks base stem ply delta pos_after ks (uniq, targets) =
      (uniq ++ (MakeTargetsFromLogs.dedup_first uniq
          (MakeTargetsFromLogs.cand_ks base stem ply delta pos_after ks)).map
            (fun t => t.pre_position),
        targets ++ MakeTargetsFromLogs.dedup_first uniq
          (MakeTargetsFromLogs.cand_ks base stem ply delta pos_after ks)) := by
  induction ks generalizing uniq targets with
  | nil => simp [MakeTargetsFromLogs.gen_ks, MakeTargetsFromLogs.cand_ks,
      MakeTargetsFromLogs.dedup_first]
  | cons k ks ih =>
      simp only [MakeTargetsFromLogs.gen_ks, MakeTargetsFromLogs.cand_ks,
        List.filterMap_cons]
      rcases hchop : MakeTargetsFromLogs.chop_moves pos_after k with _ | p
      · dsimp only
        exact ih uniq targets
      · dsimp only
        by_cases hfalsy : p = PosLine.bare ""
        · simp only [if_pos hfalsy]
          exact ih uniq targets
        · simp only [if_neg hfalsy]
          by_cases hseen : uniq.contains p = true
          · simp only [if_pos hseen]
            rw [ih uniq targets]
            simp only [MakeTargetsFromLogs.dedup_first,
              MakeTargetsFromLogs.target_of, if_pos hseen]
            simp only [MakeTargetsFromLogs.cand_ks, MakeTargetsFromLogs.target_of]
          · simp only [if_neg hseen]
            rw [ih (uniq ++ [p])
              (targets ++ [MakeTargetsFromLogs.target_of base stem ply delta k p])]
            simp only [MakeTargetsFromLogs.dedup_first,
              MakeTargetsFromLogs.target_of, if_neg hseen]
            simp only [MakeTargetsFromLogs.cand_ks, MakeTargetsFromLogs.target_of]
            simp

/-- The outer spike loop equals first-occurrence dedup of the whole
candidate stream, threaded through the shared dedup set. -/
theorem gen_spikes_spec (base stem : String) (best : List MakeTargetsFromLogs.BestRec)
    (bmin bmax : ℕ) (spikes : List (ℕ × ℤ))
    (uniq : List PosLine) (targets : List MakeTargetsFromLogs.Target) :
    MakeTargetsFromLogs.gen_spikes base stem best bmin bmax spikes (uniq, targets) =
      (uniq ++ (MakeTargetsFromLogs.dedup_first uniq
          (MakeTargetsFromLogs.candidates base stem best bmin bmax spikes)).map
            (fun t => t.pre_position),
        targets ++ MakeTargetsFromLogs.dedup_first uniq
          (MakeTargetsFromLogs.candidates base stem best bmin bmax spikes)) := by
  induction spikes generalizing uniq targets with
  | nil => simp [MakeTargetsFromLogs.gen_spikes, MakeTargetsFromLogs.candidates,
      MakeTargetsFromLogs.dedup_first]
  | cons sd rest ih =>
      simp only [MakeTargetsFromLogs.gen_spikes, MakeTargetsFromLogs.candidates,
        List.flatMap_cons]
      by_cases hguard : sd.1 < 1 ∨ best.length < sd.1
      · simp only [if_pos hguard]
        rw [ih uniq targets]
        simp [MakeTargetsFromLogs.candidates]
      · simp only [if_neg hguard]
        rw [gen_ks_spec, ih]
        rw [dedup_first_append]
        simp [MakeTargetsFromLogs.candidates]

/-- First-occurrence dedup emits pairwise-distinct positions, none of which
was already in the seen set. -/
theorem dedup_first_distinct (cands : List MakeTargetsFromLogs.Target)
    (seen : List PosLine) :
    (∀ t ∈ MakeTargetsFromLogs.dedup_first seen cands,
      t.pre_position ∉ seen) ∧
    List.Pairwise (fun a b => a.pre_position ≠ b.pre_position)
      (MakeTargetsFromLogs.dedup_first seen cands) := by
  induction cands generalizing seen with
  | nil => simp [MakeTargetsFromLogs.dedup_first]
  | cons t ts ih =>
      simp only [MakeTargetsFromLogs.dedup_first]
      by_cases hc : seen.contains t.pre_position = true
      · rw [if_pos hc]
        exact ih seen
      · rw [if_neg hc]
        have hmem : t.pre_position ∉ seen := by simpa using hc
        have htail := ih (seen ++ [t.pre_position])
        constructor
        · intro x hx
          rcases List.mem_cons.mp hx with hxt | hxtail
          · subst hxt
            exact hmem
          · intro hxseen
            exact (htail.1 x hxtail) (by simp [hxseen])
        · refine List.Pairwise.cons ?_ htail.2
          intro b hb heq
          exact (htail.1 b hb) (by simp [← heq])

namespace ExpandTargetsBack

/-- The slice of an input target that `main` of `expand_targets_back.py`
reads: `pos = t.get('pre_position') or t.get('pos_after')`. -/
structure BaseTarget where
  tag : String
  pre_position : Option PosLine
  pos_after : Option PosLine
deriving DecidableEq, Repr

/-- Python's `a or b` on optional position strings: a missing or falsy
(empty) first operand falls through to the second. -/
def py_or (a b : Option PosLine) : Option PosLine :=
  match a with
  | some p => if p = .bare "" then b else some p
  | none => b

/-- One output record of `expand_targets_back.py` (lines 30-35). -/
structure OutTarget where
  tag : String
  pre_position : Option PosLine
  origin : String
  back_plies : ℕ
deriving DecidableEq, Repr

/-- Embedding of the emission loop in `main` of `expand_targets_back.py`
(lines 27-36): one record per (input target, rewind depth) pair, with no
deduplication of resulting positions. -/
def expand_targets (base : List BaseTarget) (mn mx : ℕ) : List OutTarget :=
  base.flatMap (fun t =>
    (List.range' mn (mx + 1 - mn)).map (fun k =>
      ⟨t.tag ++ "_back" ++ toString k,
        chop_moves (py_or t.pre_position t.pos_after) k, t.tag, k⟩))

end ExpandTargetsBack

/-- The C2 counterexample: `expand_targets_back.py` performs no
deduplication, so two input targets whose positions share all but the last
move produce two output targets with an identical resulting position within
one batch (here both rewound to `startpos moves a b`). -/
theorem c2_counterexample :
    (ExpandTargetsBack.expand_targets
        [⟨"t1", some (.withMoves "startpos" ["a", "b", "c"]), none⟩,
         ⟨"t2", some (.withMoves "startpos" ["a", "b", "d"]), none⟩] 1 1).map
      (fun t => t.pre_position) =
      [some (.withMoves "startpos" ["a", "b"]),
       some (.withMoves "startpos" ["a", "b"])] ∧
    ¬ List.Pairwise (fun a b => a.pre_position ≠ b.pre_position)
      (ExpandTargetsBack.expand_targets
        [⟨"t1", some (.withMoves "startpos" ["a", "b", "c"]), none⟩,
         ⟨"t2", some (.withMoves "startpos" ["a", "b", "d"]), none⟩] 1 1) := by
  constructor
  · rfl
  · decide

/-- C2 (amended): within one `make_targets_from_logs.py` generation batch no
two emitted targets share a resulting position string, and when several
(spike, rewind-depth) pairs produce the same string only the first one
processed is emitted — the batch equals first-occurrence dedup of the raw
candidate stream.  The back-expansion utility `expand_targets_back.py`
instead emits one target per (input, depth) pair without deduplication (see
`c2_counterexample`). -/
theorem c2_generation_dedup (base stem : String)
    (best : List MakeTargetsFromLogs.BestRec) (bmin bmax : ℕ)
    (spikes : List (ℕ × ℤ)) :
    MakeTargetsFromLogs.make_targets base stem best bmin bmax spikes =
      MakeTargetsFromLogs.dedup_first []
        (MakeTargetsFromLogs.candidates base stem best bmin bmax spikes) ∧
    List.Pairwise (fun a b => a.pre_position ≠ b.pre_position)
      (MakeTargetsFromLogs.make_targets base stem best bmin bmax spikes) := by
  have hmain : MakeTargetsFromLogs.make_targets base stem best bmin bmax spikes =
      MakeTargetsFromLogs.dedup_first []
        (MakeTargetsFromLogs.candidates base stem best bmin bmax spikes) := by
    rw [MakeTargetsFromLogs.make_targets, gen_spikes_spec]
    simp
  refine ⟨hmain, ?_⟩
  rw [hmain]
  exact (dedup_first_distinct _ []).2

namespace RunRegressionChecks

/-- One parsed replay summary entry (`run_regression_checks.py` lines
79-84). -/
structure PrefixResult where
  bestmove : String
  depth : ℤ
  seldepth : ℤ
  score_cp : ℤ
deriving DecidableEq, Repr

/-- One per-prefix guard (`run_regression_checks.py` lines 37-43); an empty
`allowed_moves` list models Python's `None`/`[]`, both falsy and hence
unchecked. -/
structure PrefixGuard where
  number : ℕ
  allowed_moves : List String
  min_cp : Option ℤ
  max_cp : Option ℤ
deriving DecidableEq, Repr

/-- The bound-checking slice of a scenario (`run_regression_checks.py`
lines 45-58); the replay-plumbing fields (log, threads, multipv, byoyomi,
engine, out_dir) only configure the external replay subprocess and are not
part of `_check_bounds`. -/
structure Scenario where
  name : String
  prefixes : List ℕ
  score_cp_min : Option ℤ
  score_cp_max : Option ℤ
  seldepth_max : Option ℤ
  prefix_guards : List PrefixGuard

/-- The `seldepth_max` check of `_check_bounds` (lines 195-198). -/
def check_seld (scn : Scenario) (p : ℕ) (res : PrefixResult) :
    Except String Unit :=
  match scn.seldepth_max with
  | some sm =>
      if sm < res.seldepth then
        .error ("pre-" ++ toString p ++ ": seldepth " ++ toString res.seldepth ++
          " > max " ++ toString sm)
      else .ok ()
  | none => .ok ()

/-- The `score_cp_max` check of `_check_bounds` (lines 191-194), chaining
into the seldepth check. -/
def check_smax (scn : Scenario) (p : ℕ) (res : PrefixResult) :
    Except String Unit :=
  match scn.score_cp_max with
  | some mx =>
      if mx < res.score_cp then
        .error ("pre-" ++ toString p ++ ": score " ++ toString res.score_cp ++
          " > max " ++ toString mx)
      else check_seld scn p res
  | none => check_seld scn p res

/-- The `score_cp_min` check of `_check_bounds` (lines 187-190), chaining
into the max and seldepth checks. -/
def check_smin (scn : Scenario) (p : ℕ) (res : PrefixResult) :
    Except String Unit :=
  match scn.score_cp_min with
  | some mn =>
      if res.score_cp < mn then
        .error ("pre-" ++ toString p ++ ": score " ++ toString res.score_cp ++
          " < min " ++ toString mn)
      else check_smax scn p res
  | none => check_smax scn p res

/-- The per-prefix body of the first loop of `_check_bounds` (lines
183-198): a prefix absent from the parsed summary raises "missing in
summary", otherwise the global bounds are checked in source order. -/
def check_one (scn : Scenario) (results : ℕ → Option PrefixResult) (p : ℕ) :
    Except String Unit :=
  match results p with
  | none => .error ("prefix pre-" ++ toString p ++ " missing in summary")
  | some res => check_smin scn p res

/-- The guard `min_cp`/`max_cp` checks (lines 208-215). -/
def check_guard_cp (g : PrefixGuard) (res : PrefixResult) :
    Except String Unit :=
  match g.min_cp with
  | some mn =>
      if res.score_cp < mn then
        .error ("pre-" ++ toString g.number ++ ": score " ++
          toString res.score_cp ++ " < guard min " ++ toString mn)
      else
        match g.max_cp with
        | some mx =>
            if mx < res.score_cp then
              .error ("pre-" ++ toString g.number ++ ": score " ++
                toString res.score_cp ++ " > guard max " ++ toString mx)
            else .ok ()
        | none => .ok ()
  | none =>
      match g.max_cp with
      | some mx =>
          if mx < res.score_cp then
            .error ("pre-" ++ toString g.number ++ ": score " ++
              toString res.score_cp ++ " > guard max " ++ toString mx)
          else .ok ()
      | none => .ok ()

/-- The per-guard body of the second loop of `_check_bounds` (lines
199-215): missing prefix, then the allow-list, then the guard score
bounds. -/
def check_guard (results : ℕ → Option PrefixResult) (g : PrefixGuard) :
    Except String Unit :=
  match results g.number with
  | none => .error ("prefix guard pre-" ++ toString g.number ++ " missing")
  | some res =>
      if ¬ g.allowed_moves.isEmpty ∧ ¬ g.allowed_moves.contains res.bestmove then
        .error ("pre-" ++ toString g.number ++ ": bestmove " ++ res.bestmove ++
          " not in " ++ toString g.allowed_moves)
      else check_guard_cp g res

/-- One insertion into the Python dict comprehension
`{pg.number: pg for pg in scn.prefix_guards}`: a repeated key keeps its
first position but takes the later value. -/
def upsert (acc : List PrefixGuard) (g : PrefixGuard) : List PrefixGuard :=
  if acc.any (fun x => x.number == g.number) then
    acc.map (fun x => if x.number == g.number then g else x)
  else acc ++ [g]

/-- The `guard_map` dict of `_check_bounds` (line 199), as an ordered
association list. -/
def guard_map (gs : List PrefixGuard) : List PrefixGuard :=
  gs.foldl upsert []

/-- Run a check over each element in order and stop at the first raised
error (Python's exception propagation out of the `for` loops). -/
def check_all {α : Type} (f : α → Except String Unit) : List α → Except String Unit
  | [] => .ok ()
  | x :: xs =>
      match f x with
      | .error e => .error e
      | .ok _ => check_all f xs

/-- Embedding of `_check_bounds` (lines 182-215): the prefix loop followed
by the guard loop, either one raising the first violation found. -/
def check_bounds (scn : Scenario) (results : ℕ → Option PrefixResult) :
    Except String Unit :=
  match check_all (check_one scn results) scn.prefixes with
  | .error e => .error e
  | .ok _ => check_all (check_guard results) (guard_map scn.prefix_guards)

/-- The error payload of a check, when any. -/
def err_of : Except String Unit → Option String
  | .error e => some e
  | .ok _ => none

/-- Spec-side list of every violation of a scenario, in the exact order the
two loops of `_check_bounds` visit them. -/
def violations (scn : Scenario) (results : ℕ → Option PrefixResult) :
    List String :=
  scn.prefixes.filterMap (fun p => err_of (check_one scn results p)) ++
    (guard_map scn.prefix_guards).filterMap (fun g => err_of (check_guard results g))

/-- Spec-side "fail on the first violation found". -/
def first_violation (scn : Scenario) (results : ℕ → Option PrefixResult) :
    Except String Unit :=
  match violations scn results with
  | [] => .ok ()
  | e :: _rest => .error e

/-- The outcome of one scenario: a replay/parse failure short-circuits
(`run` catches any exception from `_run_replay`/`_parse_summary`/
`_check_bounds`), otherwise `_check_bounds` decides. -/
def scenario_outcome
    (it : Scenario × Except String (ℕ → Option PrefixResult)) :
    Except String Unit :=
  match it.2 with
  | .error e => .error e
  | .ok res => check_bounds it.1 res

/-- The failure accumulation of `RegressionSuite.run` (lines 106-123):
every scenario is evaluated, failures are collected in order. -/
def failures
    (items : List (Scenario × Except String (ℕ → Option PrefixResult))) :
    List (String × String) :=
  items.foldl
    (fun acc it =>
      match scenario_outcome it with
      | .error e => acc ++ [(it.1.name, e)]
      | .ok _ => acc) []

/-- Embedding of `RegressionSuite.run` (lines 106-123): the collected
failures and the process exit code (1 when any scenario failed, else 0). -/
def run (items : List (Scenario × Except String (ℕ → Option PrefixResult))) :
    List (String × String) × ℤ :=
  (failures items, if (failures items).isEmpty then 0 else 1)

end RunRegressionChecks

/-- Short-circuit checking equals taking the head of the violation list. -/
theorem check_all_eq_filterMap {α : Type} (f : α → Except String Unit)
    (xs : List α) :
    RunRegressionChecks.check_all f xs =
      (match xs.filterMap (fun x => RunRegressionChecks.err_of (f x)) with
        | [] => Except.ok ()
        | e :: _rest => Except.error e) := by
  induction xs with
  | nil => rfl
  | cons x xs ih =>
      simp only [RunRegressionChecks.check_all, List.filterMap_cons]
      rcases hfx : f x with e | u
      · simp [RunRegressionChecks.err_of]
      · simpa [RunRegressionChecks.err_of] using ih

/-- `_check_bounds` returns exactly the first violation in visit order. -/
theorem check_bounds_first (scn : RunRegressionChecks.Scenario)
    (results : ℕ → Option RunRegressionChecks.PrefixResult) :
    RunRegressionChecks.check_bounds scn results =
      RunRegressionChecks.first_violation scn results := by
  unfold RunRegressionChecks.check_bounds RunRegressionChecks.first_violation
    RunRegressionChecks.violations
  rw [check_all_eq_filterMap, check_all_eq_filterMap]
  cases h : scn.prefixes.filterMap
      (fun p => RunRegressionChecks.err_of
        (RunRegressionChecks.check_one scn results p)) with
  | nil => simp
  | cons e rest => simp

/-- The failure fold is the ordered filter of the failing scenarios. -/
theorem failures_eq_filterMap
    (items : List (RunRegressionChecks.Scenario ×
      Except String (ℕ → Option RunRegressionChecks.PrefixResult))) :
    RunRegressionChecks.failures items =
      items.filterMap (fun it =>
        match RunRegressionChecks.scenario_outcome it with
        | .error e => some (it.1.name, e)
        | .ok _ => none) := by
  have key : ∀ (l : List (RunRegressionChecks.Scenario ×
      Except String (ℕ → Option RunRegressionChecks.PrefixResult)))
      (acc : List (String × String)),
      l.foldl
        (fun acc it =>
          match RunRegressionChecks.scenario_outcome it with
          | .error e => acc ++ [(it.1.name, e)]
          | .ok _ => acc) acc =
        acc ++ l.filterMap (fun it =>
          match RunRegressionChecks.scenario_outcome it with
          | .error e => some (it.1.name, e)
          | .ok _ => none) := by
    intro l
    induction l with
    | nil => intro acc; simp
    | cons it l ih =>
        intro acc
        simp only [List.foldl_cons, List.filterMap_cons]
        rcases hout : RunRegressionChecks.scenario_outcome it with e | u
        · rw [ih]
          simp
        · rw [ih]
  exact (key items []).trans (by simp)

/-- C9: a scenario whose replay summary omits a declared prefix fails, the
violation raised at that prefix names it; `_check_bounds` fails on the first
bound or guard violation in visit order; the suite evaluates every scenario
and reports all failures together in order; its exit code is 0 or 1 and is
1 exactly when at least one scenario failed. -/
theorem c9_regression_suite (scn : RunRegressionChecks.Scenario)
    (results : ℕ → Option RunRegressionChecks.PrefixResult) (p : ℕ)
    (items : List (RunRegressionChecks.Scenario ×
      Except String (ℕ → Option RunRegressionChecks.PrefixResult)))
    (hp : p ∈ scn.prefixes) (hm : results p = none) :
    RunRegressionChecks.check_one scn results p =
      .error ("prefix pre-" ++ toString p ++ " missing in summary") ∧
    (∃ e, RunRegressionChecks.check_bounds scn results = .error e) ∧
    RunRegressionChecks.check_bounds scn results =
      RunRegressionChecks.first_violation scn results ∧
    (RunRegressionChecks.run items).1 =
      items.filterMap (fun it =>
        match RunRegressionChecks.scenario_outcome it with
        | .error e => some (it.1.name, e)
        | .ok _ => none) ∧
    ((RunRegressionChecks.run items).2 = 1 ↔
      ∃ it ∈ items, ∃ e,
        RunRegressionChecks.scenario_outcome it = .error e) ∧
    ((RunRegressionChecks.run items).2 = 0 ∨ (RunRegressionChecks.run items).2 = 1) := by
  have hone : RunRegressionChecks.check_one scn results p =
      .error ("prefix pre-" ++ toString p ++ " missing in summary") := by
    rw [RunRegressionChecks.check_one, hm]
  have hfail : ∃ e, RunRegressionChecks.check_bounds scn results = .error e := by
    rw [check_bounds_first]
    unfold RunRegressionChecks.first_violation
    have hmem : ("prefix pre-" ++ toString p ++ " missing in summary") ∈
        scn.prefixes.filterMap
          (fun q => RunRegressionChecks.err_of
            (RunRegressionChecks.check_one scn results q)) := by
      refine List.mem_filterMap.mpr ⟨p, hp, ?_⟩
      rw [hone]
      rfl
    unfold RunRegressionChecks.violations
    cases h : scn.prefixes.filterMap
        (fun q => RunRegressionChecks.err_of
          (RunRegressionChecks.check_one scn results q)) with
    | nil =>
        rw [h] at hmem
        exact absurd hmem (List.not_mem_nil _)
    | cons e rest => exact ⟨e, by simp⟩
  have hrun1 : (RunRegressionChecks.run items).1 =
      items.filterMap (fun it =>
        match RunRegressionChecks.scenario_outcome it with
        | .error e => some (it.1.name, e)
        | .ok _ => none) := by
    show RunRegressionChecks.failures items = _
    exact failures_eq_filterMap items
  have hcode : (RunRegressionChecks.run items).2 = 1 ↔
      ∃ it ∈ items, ∃ e,
        RunRegressionChecks.scenario_outcome it = .error e := by
    show (if (RunRegressionChecks.failures items).isEmpty then (0 : ℤ) else 1) = 1 ↔ _
    rw [failures_eq_filterMap]
    by_cases hemp : (items.filterMap (fun it =>
        match RunRegressionChecks.scenario_outcome it with
        | .error e => some (it.1.name, e)
        | .ok _ => none)) = []
    · rw [hemp]
      simp only [List.isEmpty_nil, if_true]
      constructor
      · intro hcontra
        exact absurd hcontra (by decide)
      · rintro ⟨it, hit, e, he⟩
        have hnone : (match RunRegressionChecks.scenario_outcome it with
            | Except.error e => some (it.1.name, e)
            | Except.ok _ => none) = none := List.filterMap_eq_nil.mp hemp it hit
        rw [he] at hnone
        exact absurd hnone (by simp)
    · have hempF : (items.filterMap (fun it =>
          match RunRegressionChecks.scenario_outcome it with
          | .error e => some (it.1.name, e)
          | .ok _ => none)).isEmpty = false := by
        simpa [List.isEmpty_iff] using hemp
      rw [hempF]
      simp only [Bool.false_eq_true, if_false, true_iff]
      rcases List.exists_mem_of_ne_nil _ hemp with ⟨y, hy⟩
      rcases List.mem_filterMap.mp hy with ⟨it, hit, hfit⟩
      refine ⟨it, hit, ?_⟩
      rcases hout : RunRegressionChecks.scenario_outcome it with e | u
      · exact ⟨e, rfl⟩
      · rw [hout] at hfit
        simp at hfit
  exact ⟨hone, hfail, check_bounds_first scn results, hrun1, hcode, by
    show (if (RunRegressionChecks.failures items).isEmpty then (0 : ℤ) else 1) = 0 ∨
      (if (RunRegressionChecks.failures items).isEmpty then (0 : ℤ) else 1) = 1
    by_cases hemp : (RunRegressionChecks.failures items).isEmpty <;> simp [hemp]⟩

/-- Witness for `c9_regression_suite`: a scenario declaring prefix 3 whose
replay summary is empty satisfies the hypotheses; the missing prefix is
reported, the scenario fails, and a one-scenario suite exits 1. -/
theorem c9_regression_suite_witness :
    RunRegressionChecks.check_one ⟨"s", [3], none, none, none, []⟩
        (fun _ => none) 3 =
      .error ("prefix pre-" ++ toString 3 ++ " missing in summary") ∧
    (∃ e, RunRegressionChecks.check_bounds ⟨"s", [3], none, none, none, []⟩
        (fun _ => none) = .error e) ∧
    RunRegressionChecks.check_bounds ⟨"s", [3], none, none, none, []⟩
        (fun _ => none) =
      RunRegressionChecks.first_violation ⟨"s", [3], none, none, none, []⟩
        (fun _ => none) ∧
    (RunRegressionChecks.run
        [(⟨"s", [3], none, none, none, []⟩, Except.ok (fun _ => none))]).1 =
      List.filterMap (fun it =>
        match RunRegressionChecks.scenario_outcome it with
        | .error e => some (it.1.name, e)
        | .ok _ => none)
        [(⟨"s", [3], none, none, none, []⟩, Except.ok (fun _ => none))] ∧
    ((RunRegressionChecks.run
        [(⟨"s", [3], none, none, none, []⟩, Except.ok (fun _ => none))]).2 = 1 ↔
      ∃ it ∈ [((⟨"s", [3], none, none, none, []⟩ :
          RunRegressionChecks.Scenario),
            Except.ok (fun _ => (none : Option RunRegressionChecks.PrefixResult)))],
        ∃ e, RunRegressionChecks.scenario_outcome it = .error e) ∧
    ((RunRegressionChecks.run
        [(⟨"s", [3], none, none, none, []⟩, Except.ok (fun _ => none))]).2 = 0 ∨
      (RunRegressionChecks.run
        [(⟨"s", [3], none, none, none, []⟩, Except.ok (fun _ => none))]).2 = 1) :=
  c9_regression_suite ⟨"s", [3], none, none, none, []⟩ (fun _ => none) 3
    [(⟨"s", [3], none, none, none, []⟩, Except.ok (fun _ => none))]
    (by simp) rfl
